import Mathlib

/-!
Verification of the llmap relevance-pipeline core against its specification.

The Python sources are shallowly embedded: Python strings are Lean `String`s
(or `List Char`, the sequence of code points, where line-level surgery is
proved about), the process-wide tokenizer is an abstract token counter
`cnt : String → Nat` (the spec deliberately leaves the tokenizer external,
specifying only that it counts tokens of a string), and the stateful
`CachingClient.ask` method is embedded as a pure function threading the
cache state and emitting an event trace (cache reads, backend attempts,
sleeps, cache writes).
-/

namespace Llmap

/-- Embeds `SourceText` from `src/llmap/client.py`: a named tuple of
`file_path` and `text`. -/
structure SourceText where
  file_path : String
  text : String
deriving DecidableEq

/-! ## Collation (`collate` in `src/llmap/llmap.py`)

The Python function makes one pass separating sources whose token count
exceeds `max_tokens_per_group` into `large_files` (keeping the others in
`small_files` paired with their token count), then a greedy pass packing
the small files into groups. We embed the two passes as `splitLarge` and
`groupSmall`. -/

/-- First pass of `collate`: separate large files (token count strictly
greater than the ceiling) from small ones; small ones are paired with their
token count, both lists keep the source order. -/
def splitLarge (cnt : String → Nat) (maxT : Nat) :
    List SourceText → List SourceText × List (SourceText × Nat)
  | [] => ([], [])
  | a :: rest =>
    let t := cnt a.text
    let r := splitLarge cnt maxT rest
    if t > maxT then (a :: r.1, r.2) else (r.1, (a, t) :: r.2)

/-- Second pass of `collate`: greedy grouping of the small files.
`cur` is `current_group`, `curTok` is `current_tokens`; when adding the next
item would exceed the ceiling the current group is sealed (only if nonempty,
mirroring the `if current_group:` guard) and a fresh group is started. -/
def groupSmall (maxT : Nat) : List SourceText → Nat → List (SourceText × Nat) → List (List SourceText)
  | cur, _, [] => if cur.isEmpty then [] else [cur]
  | cur, curTok, (a, t) :: rest =>
    if curTok + t > maxT then
      if cur.isEmpty then groupSmall maxT [a] t rest
      else cur :: groupSmall maxT [a] t rest
    else
      groupSmall maxT (cur ++ [a]) (curTok + t) rest

/-- Embeds `collate(sources, max_tokens_per_group)` from
`src/llmap/llmap.py`: returns `(groups, large_files)`. -/
def collate (cnt : String → Nat) (sources : List SourceText) (max_tokens_per_group : Nat) :
    List (List SourceText) × List SourceText :=
  let p := splitLarge cnt max_tokens_per_group sources
  (groupSmall max_tokens_per_group [] 0 p.2, p.1)

theorem mem_splitLarge_fst (cnt : String → Nat) (maxT : Nat) (l : List SourceText)
    (s : SourceText) : s ∈ (splitLarge cnt maxT l).1 ↔ s ∈ l ∧ maxT < cnt s.text := by
  induction l with
  | nil => simp [splitLarge]
  | cons a rest ih =>
    by_cases h : cnt a.text > maxT
    · simp only [splitLarge, if_pos h]
      constructor
      · intro hs
        rcases List.mem_cons.mp hs with rfl | hs'
        · exact ⟨List.mem_cons_self _ _, h⟩
        · have := ih.mp hs'
          exact ⟨List.mem_cons_of_mem _ this.1, this.2⟩
      · rintro ⟨hmem, hlt⟩
        rcases List.mem_cons.mp hmem with rfl | hmem'
        · exact List.mem_cons_self _ _
        · exact List.mem_cons_of_mem _ (ih.mpr ⟨hmem', hlt⟩)
    · simp only [splitLarge, if_neg h]
      constructor
      · intro hs
        have := ih.mp hs
        exact ⟨List.mem_cons_of_mem _ this.1, this.2⟩
      · rintro ⟨hmem, hlt⟩
        rcases List.mem_cons.mp hmem with rfl | hmem'
        · exact absurd hlt h
        · exact ih.mpr ⟨hmem', hlt⟩

theorem mem_splitLarge_snd (cnt : String → Nat) (maxT : Nat) (l : List SourceText)
    (pr : SourceText × Nat) (h : pr ∈ (splitLarge cnt maxT l).2) :
    pr.1 ∈ l ∧ pr.2 = cnt pr.1.text ∧ pr.2 ≤ maxT := by
  induction l with
  | nil => simp [splitLarge] at h
  | cons a rest ih =>
    by_cases ha : cnt a.text > maxT
    · simp only [splitLarge, if_pos ha] at h
      have := ih h
      exact ⟨List.mem_cons_of_mem _ this.1, this.2⟩
    · simp only [splitLarge, if_neg ha] at h
      rcases List.mem_cons.mp h with rfl | h'
      · exact ⟨List.mem_cons_self _ _, rfl, Nat.le_of_not_lt ha⟩
      · have := ih h'
        exact ⟨List.mem_cons_of_mem _ this.1, this.2⟩

theorem mem_splitLarge_snd_fst (cnt : String → Nat) (maxT : Nat) (l : List SourceText)
    (s : SourceText) :
    s ∈ (splitLarge cnt maxT l).2.map Prod.fst ↔ s ∈ l ∧ cnt s.text ≤ maxT := by
  induction l with
  | nil => simp [splitLarge]
  | cons a rest ih =>
    by_cases ha : cnt a.text > maxT
    · simp only [splitLarge, if_pos ha]
      constructor
      · intro hs
        have := ih.mp hs
        exact ⟨List.mem_cons_of_mem _ this.1, this.2⟩
      · rintro ⟨hmem, hle⟩
        rcases List.mem_cons.mp hmem with rfl | hmem'
        · exact absurd ha (Nat.not_lt.mpr hle)
        · exact ih.mpr ⟨hmem', hle⟩
    · simp only [splitLarge, if_neg ha, List.map_cons]
      constructor
      · intro hs
        rcases List.mem_cons.mp hs with rfl | hs'
        · exact ⟨List.mem_cons_self _ _, Nat.le_of_not_lt ha⟩
        · have := ih.mp hs'
          exact ⟨List.mem_cons_of_mem _ this.1, this.2⟩
      · rintro ⟨hmem, hle⟩
        rcases List.mem_cons.mp hmem with rfl | hmem'
        · exact List.mem_cons_self _ _
        · exact List.mem_cons_of_mem _ (ih.mpr ⟨hmem', hle⟩)

theorem splitLarge_perm (cnt : String → Nat) (maxT : Nat) (l : List SourceText) :
    l.Perm ((splitLarge cnt maxT l).1 ++ (splitLarge cnt maxT l).2.map Prod.fst) := by
  induction l with
  | nil => simp [splitLarge]
  | cons a rest ih =>
    by_cases ha : cnt a.text > maxT
    · simpa [splitLarge, if_pos ha] using ih.cons a
    · simp only [splitLarge, if_neg ha, List.map_cons]
      exact (ih.cons a).trans List.perm_middle.symm

theorem groupSmall_flatten (maxT : Nat) (small : List (SourceText × Nat)) :
    ∀ (cur : List SourceText) (curTok : Nat),
      (groupSmall maxT cur curTok small).flatten = cur ++ small.map Prod.fst := by
  induction small with
  | nil =>
    intro cur curTok
    by_cases h : cur.isEmpty
    · simp [groupSmall, h, List.isEmpty_iff.mp h]
    · simp [groupSmall, h]
  | cons pr rest ih =>
    intro cur curTok
    obtain ⟨a, t⟩ := pr
    by_cases hover : curTok + t > maxT
    · by_cases hcur : cur.isEmpty
      · simp [groupSmall, hover, hcur, ih, List.isEmpty_iff.mp hcur]
      · simp [groupSmall, hover, hcur, ih]
    · simp [groupSmall, hover, ih]

theorem groupSmall_ne_nil (maxT : Nat) (small : List (SourceText × Nat)) :
    ∀ (cur : List SourceText) (curTok : Nat) (g : List SourceText),
      g ∈ groupSmall maxT cur curTok small → g ≠ [] := by
  induction small with
  | nil =>
    intro cur curTok g hg
    by_cases h : cur.isEmpty
    · simp [groupSmall, h] at hg
    · simp only [groupSmall, if_neg h, List.mem_singleton] at hg
      subst hg
      exact fun hnil => h (by simp [hnil])
  | cons pr rest ih =>
    intro cur curTok g hg
    obtain ⟨a, t⟩ := pr
    by_cases hover : curTok + t > maxT
    · by_cases hcur : cur.isEmpty
      · simp only [groupSmall, if_pos hover, if_pos hcur] at hg
        exact ih _ _ _ hg
      · simp only [groupSmall, if_pos hover, if_neg hcur, List.mem_cons] at hg
        rcases hg with rfl | hg'
        · exact fun hnil => hcur (by simp [hnil])
        · exact ih _ _ _ hg'
    · simp only [groupSmall, if_neg hover] at hg
      exact ih _ _ _ hg

theorem groupSmall_sums (cnt : String → Nat) (maxT : Nat) (small : List (SourceText × Nat))
    (hsmall : ∀ pr ∈ small, pr.2 = cnt pr.1.text ∧ pr.2 ≤ maxT) :
    ∀ (cur : List SourceText) (curTok : Nat),
      (cur.map fun s => cnt s.text).sum = curTok → curTok ≤ maxT →
      ∀ g ∈ groupSmall maxT cur curTok small, (g.map fun s => cnt s.text).sum ≤ maxT := by
  induction small with
  | nil =>
    intro cur curTok hsum hle g hg
    by_cases h : cur.isEmpty
    · simp [groupSmall, h] at hg
    · simp only [groupSmall, if_neg h, List.mem_singleton] at hg
      subst hg
      omega
  | cons pr rest ih =>
    intro cur curTok hsum hle g hg
    obtain ⟨a, t⟩ := pr
    have hat : t = cnt a.text ∧ t ≤ maxT := hsmall (a, t) (List.mem_cons_self _ _)
    have hrest : ∀ pr ∈ rest, pr.2 = cnt pr.1.text ∧ pr.2 ≤ maxT :=
      fun pr h => hsmall pr (List.mem_cons_of_mem _ h)
    by_cases hover : curTok + t > maxT
    · by_cases hcur : cur.isEmpty
      · simp only [groupSmall, if_pos hover, if_pos hcur] at hg
        exact ih hrest [a] t (by simp [hat.1]) hat.2 g hg
      · simp only [groupSmall, if_pos hover, if_neg hcur, List.mem_cons] at hg
        rcases hg with rfl | hg'
        · omega
        · exact ih hrest [a] t (by simp [hat.1]) hat.2 g hg'
    · simp only [groupSmall, if_neg hover] at hg
      refine ih hrest (cur ++ [a]) (curTok + t) ?_ (Nat.le_of_not_lt hover) g hg
      simp [hsum, hat.1]

/-- Claim C1: every group returned by `collate` has a sum of per-item token
counts at most `max_tokens_per_group`, and every item whose individual token
count exceeds the ceiling is placed in the large-files list and in no group. -/
theorem c1_collate_group_sums (cnt : String → Nat) (sources : List SourceText) (maxT : Nat) :
    (∀ g ∈ (collate cnt sources maxT).1, (g.map fun s => cnt s.text).sum ≤ maxT) ∧
    (∀ s ∈ sources, maxT < cnt s.text →
      s ∈ (collate cnt sources maxT).2 ∧ ∀ g ∈ (collate cnt sources maxT).1, s ∉ g) := by
  constructor
  · intro g hg
    exact groupSmall_sums cnt maxT _
      (fun pr h => ⟨(mem_splitLarge_snd cnt maxT sources pr h).2.1,
                    (mem_splitLarge_snd cnt maxT sources pr h).2.2⟩)
      [] 0 rfl (Nat.zero_le _) g hg
  · intro s hs hlt
    refine ⟨(mem_splitLarge_fst cnt maxT sources s).mpr ⟨hs, hlt⟩, ?_⟩
    intro g hg hmem
    have hflat : s ∈ (groupSmall maxT [] 0 (splitLarge cnt maxT sources).2).flatten :=
      List.mem_flatten.mpr ⟨g, hg, hmem⟩
    rw [groupSmall_flatten] at hflat
    simp only [List.nil_append] at hflat
    have := (mem_splitLarge_snd_fst cnt maxT sources s).mp hflat
    omega

/-- Witness for C1 at a concrete input: with a length-based counter and
ceiling 4, the item of size 6 is segregated and all group sums are within 4. -/
theorem c1_collate_group_sums_witness :
    ((⟨"c", "zzzzzz"⟩ : SourceText) ∈
      (collate (fun t => t.length) [⟨"a", "xx"⟩, ⟨"b", "yyy"⟩, ⟨"c", "zzzzzz"⟩] 4).2 ∧
      ∀ g ∈ (collate (fun t => t.length) [⟨"a", "xx"⟩, ⟨"b", "yyy"⟩, ⟨"c", "zzzzzz"⟩] 4).1,
        (⟨"c", "zzzzzz"⟩ : SourceText) ∉ g) :=
  (c1_collate_group_sums (fun t => t.length)
    [⟨"a", "xx"⟩, ⟨"b", "yyy"⟩, ⟨"c", "zzzzzz"⟩] 4).2 ⟨"c", "zzzzzz"⟩ (by decide) (by decide)

/-- Claim C9: `collate` partitions its input (every source appears exactly
once across the groups and the large list together, as a permutation), an
item lands in the large list iff its token count strictly exceeds the
ceiling (so items exactly at the ceiling are grouped), and no group is
empty. -/
theorem c9_collate_partition (cnt : String → Nat) (sources : List SourceText) (maxT : Nat) :
    (((collate cnt sources maxT).1.flatten ++ (collate cnt sources maxT).2).Perm sources) ∧
    (∀ s ∈ sources, s ∈ (collate cnt sources maxT).2 ↔ maxT < cnt s.text) ∧
    (∀ s ∈ sources, cnt s.text ≤ maxT → s ∈ (collate cnt sources maxT).1.flatten) ∧
    (∀ g ∈ (collate cnt sources maxT).1, g ≠ []) := by
  have hflat : (collate cnt sources maxT).1.flatten
      = (splitLarge cnt maxT sources).2.map Prod.fst := by
    simp [collate, groupSmall_flatten]
  refine ⟨?_, ?_, ?_, ?_⟩
  · rw [hflat]
    exact (List.perm_append_comm.trans (splitLarge_perm cnt maxT sources).symm)
  · intro s hs
    constructor
    · intro hlarge
      exact ((mem_splitLarge_fst cnt maxT sources s).mp hlarge).2
    · intro hlt
      exact (mem_splitLarge_fst cnt maxT sources s).mpr ⟨hs, hlt⟩
  · intro s hs hle
    rw [hflat]
    exact (mem_splitLarge_snd_fst cnt maxT sources s).mpr ⟨hs, hle⟩
  · intro g hg
    exact groupSmall_ne_nil maxT _ [] 0 g hg

/-- Witness for C9 at a concrete input: partition and strict-threshold facts
hold for a three-item list where one item is exactly at the ceiling. -/
theorem c9_collate_partition_witness :
    (((collate (fun t => t.length) [⟨"a", "xx"⟩, ⟨"b", "yyyy"⟩, ⟨"c", "zzzzzz"⟩] 4).1.flatten ++
       (collate (fun t => t.length) [⟨"a", "xx"⟩, ⟨"b", "yyyy"⟩, ⟨"c", "zzzzzz"⟩] 4).2).Perm
        [⟨"a", "xx"⟩, ⟨"b", "yyyy"⟩, ⟨"c", "zzzzzz"⟩]) ∧
    ((⟨"b", "yyyy"⟩ : SourceText) ∈
      (collate (fun t => t.length) [⟨"a", "xx"⟩, ⟨"b", "yyyy"⟩, ⟨"c", "zzzzzz"⟩] 4).1.flatten) :=
  ⟨(c9_collate_partition (fun t => t.length)
      [⟨"a", "xx"⟩, ⟨"b", "yyyy"⟩, ⟨"c", "zzzzzz"⟩] 4).1,
   (c9_collate_partition (fun t => t.length)
      [⟨"a", "xx"⟩, ⟨"b", "yyyy"⟩, ⟨"c", "zzzzzz"⟩] 4).2.2.1 ⟨"b", "yyyy"⟩ (by decide) (by decide)⟩

/-! ## Triage response parsing (`check_skeleton_batch` in `src/llmap/llmap.py`)

`return [b.file_path for b in batch if b.file_path in response]` — the
Python substring operator `in` is embedded as contiguous-sublist containment
on the sequences of code points. -/

/-- Embeds the Python string containment test `needle in hay`: `needle`
occurs as a contiguous substring of `hay`. -/
def strIn (needle hay : String) : Bool := decide (needle.data <:+: hay.data)

/-- Embeds the body of `check_skeleton_batch` (the list comprehension at
`llmap.py:115`): the paths of the batch members whose path occurs in the
response. -/
def check_skeleton_batch (batch : List SourceText) (response : String) : List String :=
  (batch.filter fun b => strIn b.file_path response).map fun b => b.file_path

/-- Claim C4: a path is reported by `check_skeleton_batch` iff it is the
path of some batch member and occurs literally as a substring anywhere in
the triage response. -/
theorem c4_triage_substring_parse (batch : List SourceText) (response : String) (p : String) :
    p ∈ check_skeleton_batch batch response ↔
      (∃ b ∈ batch, b.file_path = p) ∧ p.data <:+: response.data := by
  constructor
  · intro hp
    obtain ⟨b, hb, rfl⟩ := List.mem_map.mp hp
    obtain ⟨hbb, hdec⟩ := List.mem_filter.mp hb
    exact ⟨⟨b, hbb, rfl⟩, of_decide_eq_true hdec⟩
  · rintro ⟨⟨b, hb, rfl⟩, hsub⟩
    exact List.mem_map.mpr ⟨b, List.mem_filter.mpr ⟨hb, decide_eq_true hsub⟩, rfl⟩

/-- Witness for C4 at a concrete input: the path "a/b.py" is reported for a
response that embeds it mid-line, and a path absent from the response is
not reported. -/
theorem c4_triage_substring_parse_witness :
    "a/b.py" ∈ check_skeleton_batch [⟨"a/b.py", "sk"⟩] "- a/b.py is relevant" ∧
    "c.py" ∉ check_skeleton_batch [⟨"c.py", "sk"⟩] "- a/b.py is relevant" :=
  ⟨(c4_triage_substring_parse [⟨"a/b.py", "sk"⟩] "- a/b.py is relevant" "a/b.py").mpr
    ⟨⟨⟨"a/b.py", "sk"⟩, by decide, rfl⟩, by decide⟩,
   fun h => by
    have := ((c4_triage_substring_parse [⟨"c.py", "sk"⟩] "- a/b.py is relevant" "c.py").mp h).2
    exact absurd this (by decide)⟩

/-! ## Phase 3 per-file combination (`search` in `src/llmap/llmap.py`)

Per file, the chunk analyses collected in completion order are combined by
`"\n\n".join(sorted(analyses))` (line 170). The per-file list is the
arrival-ordered restriction of the chunk-analysis stream to that file. -/

/-- The chunk analyses of `file` in arrival order: embeds the
`analyses_by_file` defaultdict grouping at `llmap.py:162-164`. -/
def analyses_for (file : String) (arrivals : List (String × String)) : List String :=
  (arrivals.filter fun pr => pr.1 == file).map Prod.snd

/-- Embeds `combined = "\n\n".join(sorted(analyses))` at `llmap.py:170`:
join the lexically sorted analyses with blank-line separators. -/
def combine_chunk_analyses (analyses : List String) : String :=
  String.intercalate "\n\n" (analyses.mergeSort fun a b => decide (a ≤ b))

theorem mergeSort_eq_of_perm {l₁ l₂ : List String} (h : l₁.Perm l₂) :
    (l₁.mergeSort fun a b => decide (a ≤ b)) = (l₂.mergeSort fun a b => decide (a ≤ b)) :=
  List.eq_of_perm_of_sorted
    (((List.mergeSort_perm l₁ _).trans h).trans (List.mergeSort_perm l₂ _).symm)
    (List.sorted_mergeSort' l₁) (List.sorted_mergeSort' l₂)

/-- Claim C8: the Phase 3 combined per-file text is invariant under every
permutation of the order in which the chunk analyses arrive. -/
theorem c8_combine_order_invariant (file : String) (arrivals₁ arrivals₂ : List (String × String))
    (h : arrivals₁.Perm arrivals₂) :
    combine_chunk_analyses (analyses_for file arrivals₁) =
      combine_chunk_analyses (analyses_for file arrivals₂) := by
  unfold combine_chunk_analyses analyses_for
  rw [mergeSort_eq_of_perm ((h.filter _).map _)]

/-- Witness for C8 at a concrete input: two arrival orders of the same
chunk analyses combine to the same per-file text. -/
theorem c8_combine_order_invariant_witness :
    combine_chunk_analyses (analyses_for "f" [("f", "beta"), ("g", "x"), ("f", "alpha")]) =
      combine_chunk_analyses (analyses_for "f" [("f", "alpha"), ("f", "beta"), ("g", "x")]) :=
  c8_combine_order_invariant "f" _ _ (by decide)

/-! ## Truncation (`maybe_truncate` in `src/ai.py`, lines 72-86)

```
tokens = tokenizer.encode(text)
if len(tokens) <= max_tokens: return text
while len(tokens) > max_tokens:
    lines = text.split('\n')
    text = '\n'.join(lines[:len(lines) // 2])
    tokens = tokenizer.encode(text)
return text
```

The text is embedded as its sequence of code points (`List Char`), the
tokenizer as an abstract counter `cnt : List Char → Nat`. The loop body is
`truncStep`; the while loop is embedded with explicit fuel, so that
non-termination of the Python loop is expressible (`truncLoop` returning
`none` for every fuel). -/

/-- Embeds Python `text.split('\n')`: split into the (always nonempty) list
of newline-free segments. -/
def splitNl : List Char → List (List Char)
  | [] => [[]]
  | c :: rest =>
    if c = '\n' then [] :: splitNl rest
    else
      match splitNl rest with
      | [] => [[c]]
      | p :: ps => (c :: p) :: ps

/-- Embeds Python `'\n'.join(parts)`. -/
def joinNl (ps : List (List Char)) : List Char := List.intercalate ['\n'] ps

/-- One iteration of the `maybe_truncate` loop body: split on newlines and
keep the first half of the lines. -/
def truncStep (text : List Char) : List Char :=
  joinNl ((splitNl text).take ((splitNl text).length / 2))

/-- The `maybe_truncate` while loop with explicit fuel: `none` means the
fuel ran out before the token count dropped to the limit. -/
def truncLoop (cnt : List Char → Nat) (maxT : Nat) : Nat → List Char → Option (List Char)
  | 0, _ => none
  | fuel + 1, text =>
    if cnt text ≤ maxT then some text else truncLoop cnt maxT fuel (truncStep text)

/-- Embeds `maybe_truncate(text, max_tokens)` with the canonical fuel
`text.length + 1` (shown sufficient whenever the loop terminates at all). -/
def maybe_truncate (cnt : List Char → Nat) (maxT : Nat) (text : List Char) : Option (List Char) :=
  truncLoop cnt maxT (text.length + 1) text

/-- The Python `maybe_truncate` loop terminates on `text`. -/
def truncTerminates (cnt : List Char → Nat) (maxT : Nat) (text : List Char) : Prop :=
  ∃ fuel r, truncLoop cnt maxT fuel text = some r

theorem splitNl_ne_nil (l : List Char) : splitNl l ≠ [] := by
  cases l with
  | nil => simp [splitNl]
  | cons c rest =>
    by_cases h : c = '\n'
    · simp [splitNl, h]
    · simp only [splitNl, if_neg h]
      cases splitNl rest <;> simp

theorem joinNl_nil : joinNl [] = [] := rfl

theorem joinNl_singleton (p : List Char) : joinNl [p] = p := by
  simp [joinNl, List.intercalate]

theorem joinNl_cons_cons (p q : List Char) (ps : List (List Char)) :
    joinNl (p :: q :: ps) = p ++ '\n' :: joinNl (q :: ps) := by
  simp [joinNl, List.intercalate, List.intersperse]

theorem joinNl_cons_head (c : Char) (p : List Char) (ps : List (List Char)) :
    joinNl ((c :: p) :: ps) = c :: joinNl (p :: ps) := by
  cases ps with
  | nil => simp [joinNl_singleton]
  | cons q qs => simp [joinNl_cons_cons]

theorem joinNl_splitNl (l : List Char) : joinNl (splitNl l) = l := by
  induction l with
  | nil => simp [splitNl, joinNl_singleton]
  | cons c rest ih =>
    by_cases h : c = '\n'
    · subst h
      simp only [splitNl, if_pos rfl, if_true]
      obtain ⟨p, ps, hps⟩ : ∃ p ps, splitNl rest = p :: ps := by
        cases hsp : splitNl rest with
        | nil => exact absurd hsp (splitNl_ne_nil rest)
        | cons p ps => exact ⟨p, ps, rfl⟩
      rw [hps]
      rw [hps] at ih
      rw [joinNl_cons_cons]
      simp [ih]
    · simp only [splitNl, if_neg h]
      obtain ⟨p, ps, hps⟩ : ∃ p ps, splitNl rest = p :: ps := by
        cases hsp : splitNl rest with
        | nil => exact absurd hsp (splitNl_ne_nil rest)
        | cons p ps => exact ⟨p, ps, rfl⟩
      rw [hps]
      rw [hps] at ih
      rw [joinNl_cons_head, ih]

theorem joinNl_take_split (k : Nat) (L : List (List Char)) (hk : 0 < k) (hkL : k < L.length) :
    joinNl L = joinNl (L.take k) ++ '\n' :: joinNl (L.drop k) := by
  induction L generalizing k with
  | nil => simp at hkL
  | cons p ps ih =>
    match k, hk with
    | 1, _ =>
      have hps : ps ≠ [] := by
        intro h
        rw [h] at hkL
        simp at hkL
      obtain ⟨q, qs, rfl⟩ := List.exists_cons_of_ne_nil hps
      simp only [List.take, List.drop, List.take_zero, List.drop_zero]
      rw [joinNl_cons_cons, joinNl_singleton]
    | k' + 2, _ =>
      have hk' : 0 < k' + 1 := Nat.succ_pos _
      have hkL' : k' + 1 < ps.length := by
        simp only [List.length_cons] at hkL
        omega
      have hps : ps ≠ [] := by
        intro h
        rw [h] at hkL'
        simp at hkL'
      obtain ⟨q, qs, rfl⟩ := List.exists_cons_of_ne_nil hps
      have htake : (p :: q :: qs).take (k' + 2) = p :: (q :: qs).take (k' + 1) := rfl
      have hdrop : (p :: q :: qs).drop (k' + 2) = (q :: qs).drop (k' + 1) := rfl
      rw [htake, hdrop]
      have htk : ∃ u us, (q :: qs).take (k' + 1) = u :: us := ⟨q, qs.take k', rfl⟩
      obtain ⟨u, us, hu⟩ := htk
      rw [joinNl_cons_cons, ih (k' + 1) hk' hkL', hu, joinNl_cons_cons]
      simp

theorem truncStep_length_lt (text : List Char) (h : text ≠ []) :
    (truncStep text).length < text.length := by
  unfold truncStep
  set L := splitNl text with hL
  have hLne : L ≠ [] := hL ▸ splitNl_ne_nil text
  have hjoin : joinNl L = text := hL ▸ joinNl_splitNl text
  by_cases h1 : L.length / 2 = 0
  · rw [h1]
    simp only [List.take_zero, joinNl_nil, List.length_nil]
    exact List.length_pos.mpr h
  · have hk : 0 < L.length / 2 := Nat.pos_of_ne_zero h1
    have hkL : L.length / 2 < L.length := by
      have : 0 < L.length := List.length_pos.mpr hLne
      omega
    have := joinNl_take_split (L.length / 2) L hk hkL
    rw [this] at hjoin
    calc (joinNl (L.take (L.length / 2))).length
        < (joinNl (L.take (L.length / 2))).length + ('\n' :: joinNl (L.drop (L.length / 2))).length := by
          simp
      _ = text.length := by rw [← hjoin, List.length_append]

theorem truncLoop_mono (cnt : List Char → Nat) (maxT : Nat) (f f' : Nat) (text : List Char)
    (r : List Char) (h : truncLoop cnt maxT f text = some r) (hf : f ≤ f') :
    truncLoop cnt maxT f' text = some r := by
  induction f generalizing f' text with
  | zero => simp [truncLoop] at h
  | succ n ih =>
    obtain ⟨m, rfl⟩ : ∃ m, f' = m + 1 := ⟨f' - 1, by omega⟩
    simp only [truncLoop] at h ⊢
    by_cases hc : cnt text ≤ maxT
    · rw [if_pos hc] at h ⊢
      exact h
    · rw [if_neg hc] at h ⊢
      exact ih _ _ h (by omega)

theorem truncLoop_result (cnt : List Char → Nat) (maxT : Nat) (fuel : Nat) (text r : List Char)
    (h : truncLoop cnt maxT fuel text = some r) :
    cnt r ≤ maxT ∧ ∃ n, r = truncStep^[n] text := by
  induction fuel generalizing text with
  | zero => simp [truncLoop] at h
  | succ n ih =>
    simp only [truncLoop] at h
    by_cases hc : cnt text ≤ maxT
    · rw [if_pos hc] at h
      cases h
      exact ⟨hc, 0, rfl⟩
    · rw [if_neg hc] at h
      obtain ⟨h1, m, hm⟩ := ih _ h
      exact ⟨h1, m + 1, by rw [hm, Function.iterate_succ_apply]⟩

/-- Claim C7 (amended): provided the token counter assigns the empty text a
count at most `max_tokens` — true in particular of any counter with
`cnt [] = 0` — `maybe_truncate` terminates, returns the text unchanged when
its token count is at most `max_tokens`, and otherwise returns an iterate
of the halving step whose token count is at most `max_tokens`. -/
theorem c7_maybe_truncate (cnt : List Char → Nat) (maxT : Nat) (text : List Char)
    (hempty : cnt [] ≤ maxT) :
    ∃ r, maybe_truncate cnt maxT text = some r ∧
      truncTerminates cnt maxT text ∧
      (cnt text ≤ maxT → r = text) ∧
      cnt r ≤ maxT ∧ ∃ n, r = truncStep^[n] text := by
  suffices h : ∃ r, maybe_truncate cnt maxT text = some r by
    obtain ⟨r, hr⟩ := h
    have hres := truncLoop_result cnt maxT _ _ _ hr
    refine ⟨r, hr, ⟨_, r, hr⟩, ?_, hres.1, hres.2⟩
    intro hc
    unfold maybe_truncate truncLoop at hr
    rw [if_pos hc] at hr
    exact (Option.some_inj.mp hr).symm
  unfold maybe_truncate
  have key : ∀ (N : Nat) (t : List Char), t.length < N → ∃ r, truncLoop cnt maxT (t.length + 1) t = some r := by
    intro N
    induction N with
    | zero => intro t ht; omega
    | succ N ih =>
      intro t ht
      by_cases hc : cnt t ≤ maxT
      · exact ⟨t, by simp [truncLoop, hc]⟩
      · have htne : t ≠ [] := by
          intro h
          rw [h] at hc
          exact hc hempty
        have hlt := truncStep_length_lt t htne
        obtain ⟨r, hr⟩ := ih (truncStep t) (by omega)
        refine ⟨r, ?_⟩
        show truncLoop cnt maxT (t.length + 1) t = some r
        have hstep : truncLoop cnt maxT (t.length + 1) t
            = truncLoop cnt maxT t.length (truncStep t) := by
          conv in t.length + 1 => rw [← Nat.succ_eq_add_one]
          simp only [truncLoop, if_neg hc]
        rw [hstep]
        exact truncLoop_mono cnt maxT _ _ _ _ hr (by omega)
  exact key (text.length + 1) text (by omega)

/-- Witness for C7 (amended) at a concrete input: with a counter that counts
code points, the four-line ten-character text is truncated to within five
tokens by line halving. -/
theorem c7_maybe_truncate_witness :
    (fun l : List Char => l.length) [] ≤ 5 ∧
    ∃ r, maybe_truncate (fun l => l.length) 5 "ab\ncd\nef\ngh".data = some r ∧
      (fun l : List Char => l.length) r ≤ 5 :=
  ⟨Nat.zero_le _, by
    obtain ⟨r, hr, _, _, hle, _⟩ :=
      c7_maybe_truncate (fun l => l.length) 5 "ab\ncd\nef\ngh".data (Nat.zero_le _)
    exact ⟨r, hr, hle⟩⟩

theorem truncStep_single : truncStep ['a'] = [] := by decide

theorem truncStep_nil : truncStep [] = [] := by decide

theorem truncLoop_const_one_nil (fuel : Nat) :
    truncLoop (fun _ => 1) 0 fuel [] = none := by
  induction fuel with
  | zero => rfl
  | succ n ih =>
    simp only [truncLoop, truncStep_nil]
    rw [if_neg (by omega)]
    exact ih

/-- Counterexample to claim C7 as stated: the claim quantifies over every
`max_tokens ≥ 0` with the token counter left to its external contract, but
if the counter assigns the empty text a positive count (as a tokenizer
emitting a begin-of-sentence token does) and `max_tokens = 0`, the loop
diverges on the one-character text "a": halving reaches the empty text and
never leaves it, so no amount of fuel makes it terminate. -/
theorem c7_counterexample :
    maybe_truncate (fun _ => 1) 0 ['a'] = none ∧ ¬ truncTerminates (fun _ => 1) 0 ['a'] := by
  have hstep : ∀ fuel, truncLoop (fun _ : List Char => 1) 0 fuel ['a'] = none := by
    intro fuel
    cases fuel with
    | zero => rfl
    | succ n =>
      simp only [truncLoop, truncStep_single]
      rw [if_neg (by omega)]
      exact truncLoop_const_one_nil n
  refine ⟨hstep _, ?_⟩
  rintro ⟨fuel, r, hr⟩
  rw [hstep fuel] at hr
  exact Option.noConfusion hr

/-! ## The caching client (`CachingClient.ask` in `src/llmap/client.py`)

`ask` is embedded as a pure function. The mutable pieces of the Python
method become explicit:

* the cache mode from `LLMAP_CACHE` is a `CacheMode` (the constructor
  `self.cache = None if cache_mode == 'none' else Cache()` is captured by
  `cacheEnabled`);
* the sqlite cache is an association list threaded through the call;
* the backend is a function from attempt number to what the streamed
  request does on that attempt (`chat.completions.create` plus the
  delta-accumulation loop): complete with accumulated content, or raise one
  of the error classes of the retry table;
* the observable actions (cache get, stream opened, sleeps, cache set) are
  collected in an event trace.

The SHA-256 cache key of `_make_cache_key` is modeled as the serialized
`(messages, model)` pair itself: the claims under verification depend only
on the key being a deterministic function of that pair, not on the digest. -/

/-- The four `LLMAP_CACHE` modes. -/
inductive CacheMode
  | modeNone
  | modeRead
  | modeWrite
  | modeReadWrite
deriving DecidableEq

/-- A chat message: `{"role": ..., "content": ...}`. -/
structure Message where
  role : String
  content : String
deriving DecidableEq

/-- The cache key of `_make_cache_key(messages, model)`. -/
abbrev CacheKey := List Message × String

/-- The cache contents: key to stored answer (`{'answer': content}`). -/
abbrev CacheState := List (CacheKey × String)

/-- What the backend does on one attempt of the retry loop, as seen through
the streaming request in `ask`: the stream completes with the accumulated
content, or one of the error classes of the retry table is raised. -/
inductive AttemptOutcome
  | success (content : String)
  | rateLimit
  | requestError
  | transientError
deriving DecidableEq

/-- How a call to `ask` ends: a response whose `content` is returned, an
`AIRequestException` (kind Request), or an `AITimeoutException`
(kind Timeout). -/
inductive AskResult
  | answer (content : String)
  | requestFailure
  | timeoutFailure
deriving DecidableEq

/-- The observable actions of one call to `ask`, in order. -/
inductive Event
  | cacheRead (key : CacheKey)
  | backendAttempt (attempt : Nat)
  | backoffSleep (attempt : Nat)
  | retrySleep (secs : Nat)
  | cacheWrite (key : CacheKey) (answer : String)
deriving DecidableEq

/-- Embeds `_make_cache_key(messages, model)` (digest abstracted, see
section comment). -/
def mkCacheKey (messages : List Message) (model : String) : CacheKey := (messages, model)

/-- Embeds `self.cache = None if cache_mode == 'none' else Cache()`:
whether a cache handle exists. -/
def cacheEnabled (mode : CacheMode) : Bool := mode ≠ CacheMode.modeNone

/-- Embeds `Cache.get`. -/
def cacheGet (cache : CacheState) (key : CacheKey) : Option String :=
  (cache.find? fun e => e.1 == key).map Prod.snd

/-- Embeds `Cache.set` (`INSERT OR REPLACE`). -/
def cacheSet (cache : CacheState) (key : CacheKey) (answer : String) : CacheState :=
  (key, answer) :: cache.filter fun e => e.1 != key

/-- The code points Python's `str.strip()` treats as whitespace (CPython's
Unicode whitespace set): U+0009-U+000D, U+001C-U+001F, U+0020, U+0085,
U+00A0, U+1680, U+2000-U+200A, U+2028, U+2029, U+202F, U+205F, U+3000. -/
def isPySpace (c : Char) : Bool :=
  decide ((9 ≤ c.toNat ∧ c.toNat ≤ 13) ∨ (28 ≤ c.toNat ∧ c.toNat ≤ 31) ∨ c.toNat = 32 ∨
    c.toNat = 0x85 ∨ c.toNat = 0xA0 ∨ c.toNat = 0x1680 ∨
    (0x2000 ≤ c.toNat ∧ c.toNat ≤ 0x200A) ∨ c.toNat = 0x2028 ∨ c.toNat = 0x2029 ∨
    c.toNat = 0x202F ∨ c.toNat = 0x205F ∨ c.toNat = 0x3000)

/-- Embeds the truthiness of `not content.strip()`: every code point of the
content is Python whitespace (so stripping leaves the empty string). -/
def isBlank (content : String) : Bool :=
  content.data.all isPySpace

/-- Embeds the `for attempt in range(10)` retry loop of `ask`, from the
attempt `attempt` with `rem` attempts left. Each iteration opens the
streaming request (`backendAttempt`); a blank accumulated content raises
`FakeInternalServerError`, caught together with transport resets and
generic API errors by the 1-second-sleep retry arm; a rate limit sleeps
with exponential backoff; the four client-error classes abort with an
`AIRequestException`; a non-blank content is written to the cache when the
mode permits writes and returned. Exhausting the loop raises
`AITimeoutException` (the `for`/`else`). -/
def askLoop (mode : CacheMode) (backend : Nat → AttemptOutcome) (key : CacheKey) :
    Nat → Nat → CacheState → AskResult × List Event × CacheState
  | _, 0, cache => (AskResult.timeoutFailure, [], cache)
  | attempt, rem + 1, cache =>
    match backend attempt with
    | AttemptOutcome.success content =>
      if isBlank content then
        let t := askLoop mode backend key (attempt + 1) rem cache
        (t.1, Event.backendAttempt attempt :: Event.retrySleep 1 :: t.2.1, t.2.2)
      else
        if cacheEnabled mode ∧ (mode = CacheMode.modeWrite ∨ mode = CacheMode.modeReadWrite) then
          (AskResult.answer content,
           [Event.backendAttempt attempt, Event.cacheWrite key content],
           cacheSet cache key content)
        else
          (AskResult.answer content, [Event.backendAttempt attempt], cache)
    | AttemptOutcome.requestError =>
      (AskResult.requestFailure, [Event.backendAttempt attempt], cache)
    | AttemptOutcome.rateLimit =>
      let t := askLoop mode backend key (attempt + 1) rem cache
      (t.1, Event.backendAttempt attempt :: Event.backoffSleep attempt :: t.2.1, t.2.2)
    | AttemptOutcome.transientError =>
      let t := askLoop mode backend key (attempt + 1) rem cache
      (t.1, Event.backendAttempt attempt :: Event.retrySleep 1 :: t.2.1, t.2.2)

/-- Embeds `CachingClient.ask(messages, model)`: consult the cache when the
mode permits reads, otherwise (or on a miss) run the retry loop with 10
attempts. -/
def ask (mode : CacheMode) (backend : Nat → AttemptOutcome) (messages : List Message)
    (model : String) (cache : CacheState) : AskResult × List Event × CacheState :=
  let key := mkCacheKey messages model
  if cacheEnabled mode ∧ (mode = CacheMode.modeRead ∨ mode = CacheMode.modeReadWrite) then
    match cacheGet cache key with
    | some answer => (AskResult.answer answer, [Event.cacheRead key], cache)
    | none =>
      let t := askLoop mode backend key 0 10 cache
      (t.1, Event.cacheRead key :: t.2.1, t.2.2)
  else
    askLoop mode backend key 0 10 cache

/-- Embeds `CachingClient.max_tokens()`: 62000 - 8000 for the DeepSeek
endpoint, 500000 otherwise. -/
def max_tokens (api_base_url : String) : Nat :=
  if api_base_url = "https://api.deepseek.com" then 62000 - 8000 else 500000

/-- Modelled from the spec: "the token count of its messages" — the token
counter applied across the message array. No code in `ask` computes this;
it is the spec-side quantity of claim C2. -/
def msgTokens (cnt : String → Nat) (messages : List Message) : Nat :=
  (messages.map fun m => cnt m.content).sum

/-- The call reads the cache before the loop: the mode permits reads. -/
def readsEnabled (mode : CacheMode) : Prop :=
  cacheEnabled mode ∧ (mode = CacheMode.modeRead ∨ mode = CacheMode.modeReadWrite)

instance : DecidablePred readsEnabled := fun mode => by
  unfold readsEnabled
  infer_instance

/-- The number of streaming requests opened (attempts made) in a trace. -/
def attemptCount (evs : List Event) : Nat :=
  (evs.filter fun e => match e with | Event.backendAttempt _ => true | _ => false).length

theorem askLoop_rateLimit_all (mode : CacheMode) (backend : Nat → AttemptOutcome)
    (key : CacheKey) (hrl : ∀ i, backend i = AttemptOutcome.rateLimit) :
    ∀ (n attempt : Nat) (cache : CacheState),
      (askLoop mode backend key attempt n cache).1 = AskResult.timeoutFailure ∧
      attemptCount (askLoop mode backend key attempt n cache).2.1 = n ∧
      (askLoop mode backend key attempt n cache).2.2 = cache := by
  intro n
  induction n with
  | zero => intro attempt cache; exact ⟨rfl, rfl, rfl⟩
  | succ m ih =>
    intro attempt cache
    have ⟨ih1, ih2, ih3⟩ := ih (attempt + 1) cache
    simp only [askLoop, hrl attempt]
    refine ⟨ih1, ?_, ih3⟩
    simp only [attemptCount, List.filter] at ih2 ⊢
    simp [ih2]

theorem askLoop_no_read (mode : CacheMode) (backend : Nat → AttemptOutcome) (key : CacheKey) :
    ∀ (n attempt : Nat) (cache : CacheState) (k : CacheKey),
      Event.cacheRead k ∉ (askLoop mode backend key attempt n cache).2.1 := by
  intro n
  induction n with
  | zero => intro attempt cache k h; simp [askLoop] at h
  | succ m ih =>
    intro attempt cache k h
    cases hb : backend attempt
    case success content =>
      simp only [askLoop, hb] at h
      by_cases hbl : isBlank content = true
      · rw [if_pos hbl] at h
        simp only [List.mem_cons] at h
        rcases h with h | h | h
        · exact Event.noConfusion h
        · exact Event.noConfusion h
        · exact ih (attempt + 1) cache k h
      · rw [if_neg hbl] at h
        by_cases hw : cacheEnabled mode = true ∧
            (mode = CacheMode.modeWrite ∨ mode = CacheMode.modeReadWrite)
        · rw [if_pos hw] at h
          simp at h
        · rw [if_neg hw] at h
          simp at h
    case requestError =>
      simp only [askLoop, hb] at h
      simp at h
    case rateLimit =>
      simp only [askLoop, hb, List.mem_cons] at h
      rcases h with h | h | h
      · exact Event.noConfusion h
      · exact Event.noConfusion h
      · exact ih (attempt + 1) cache k h
    case transientError =>
      simp only [askLoop, hb, List.mem_cons] at h
      rcases h with h | h | h
      · exact Event.noConfusion h
      · exact Event.noConfusion h
      · exact ih (attempt + 1) cache k h

theorem askLoop_write_inv (mode : CacheMode) (backend : Nat → AttemptOutcome) (key : CacheKey) :
    ∀ (n attempt : Nat) (cache : CacheState) (k : CacheKey) (a : String),
      Event.cacheWrite k a ∈ (askLoop mode backend key attempt n cache).2.1 →
      (mode = CacheMode.modeWrite ∨ mode = CacheMode.modeReadWrite) ∧
      isBlank a = false ∧ k = key := by
  intro n
  induction n with
  | zero => intro attempt cache k a h; simp [askLoop] at h
  | succ m ih =>
    intro attempt cache k a h
    cases hb : backend attempt
    case success content =>
      simp only [askLoop, hb] at h
      by_cases hbl : isBlank content = true
      · rw [if_pos hbl] at h
        simp only [List.mem_cons] at h
        rcases h with h | h | h
        · exact Event.noConfusion h
        · exact Event.noConfusion h
        · exact ih (attempt + 1) cache k a h
      · rw [if_neg hbl] at h
        by_cases hw : cacheEnabled mode = true ∧
            (mode = CacheMode.modeWrite ∨ mode = CacheMode.modeReadWrite)
        · rw [if_pos hw] at h
          simp only [List.mem_cons, List.not_mem_nil, or_false] at h
          rcases h with h | h
          · exact Event.noConfusion h
          · obtain ⟨rfl, rfl⟩ := Event.cacheWrite.inj h
            exact ⟨hw.2, Bool.eq_false_iff.mpr hbl, rfl⟩
        · rw [if_neg hw] at h
          simp at h
    case requestError =>
      simp only [askLoop, hb] at h
      simp at h
    case rateLimit =>
      simp only [askLoop, hb, List.mem_cons] at h
      rcases h with h | h | h
      · exact Event.noConfusion h
      · exact Event.noConfusion h
      · exact ih (attempt + 1) cache k a h
    case transientError =>
      simp only [askLoop, hb, List.mem_cons] at h
      rcases h with h | h | h
      · exact Event.noConfusion h
      · exact Event.noConfusion h
      · exact ih (attempt + 1) cache k a h

theorem askLoop_no_write_state (mode : CacheMode) (backend : Nat → AttemptOutcome)
    (key : CacheKey)
    (hm : ¬(mode = CacheMode.modeWrite ∨ mode = CacheMode.modeReadWrite)) :
    ∀ (n attempt : Nat) (cache : CacheState),
      (askLoop mode backend key attempt n cache).2.2 = cache := by
  intro n
  induction n with
  | zero => intro attempt cache; rfl
  | succ m ih =>
    intro attempt cache
    cases hb : backend attempt
    case success content =>
      simp only [askLoop, hb]
      by_cases hbl : isBlank content = true
      · rw [if_pos hbl]
        exact ih (attempt + 1) cache
      · rw [if_neg hbl]
        rw [if_neg fun hw => hm hw.2]
    case requestError => simp only [askLoop, hb]
    case rateLimit =>
      simp only [askLoop, hb]
      exact ih (attempt + 1) cache
    case transientError =>
      simp only [askLoop, hb]
      exact ih (attempt + 1) cache

theorem askLoop_attempt_mem (mode : CacheMode) (backend : Nat → AttemptOutcome) (key : CacheKey)
    (n attempt : Nat) (cache : CacheState) :
    Event.backendAttempt attempt ∈ (askLoop mode backend key attempt (n + 1) cache).2.1 := by
  cases hb : backend attempt
  case success content =>
    simp only [askLoop, hb]
    by_cases hbl : isBlank content = true
    · rw [if_pos hbl]; exact List.mem_cons_self _ _
    · rw [if_neg hbl]
      by_cases hw : cacheEnabled mode = true ∧
          (mode = CacheMode.modeWrite ∨ mode = CacheMode.modeReadWrite)
      · rw [if_pos hw]; exact List.mem_cons_self _ _
      · rw [if_neg hw]; exact List.mem_cons_self _ _
  case requestError =>
    simp only [askLoop, hb]
    exact List.mem_cons_self _ _
  case rateLimit =>
    simp only [askLoop, hb]
    exact List.mem_cons_self _ _
  case transientError =>
    simp only [askLoop, hb]
    exact List.mem_cons_self _ _

theorem askLoop_congr (mode : CacheMode) (b b' : Nat → AttemptOutcome) (key : CacheKey) :
    ∀ (n attempt : Nat) (cache : CacheState),
      (∀ i, attempt ≤ i → b i = b' i) →
      askLoop mode b key attempt n cache = askLoop mode b' key attempt n cache := by
  intro n
  induction n with
  | zero => intro attempt cache _; rfl
  | succ m ih =>
    intro attempt cache hag
    have hrec : askLoop mode b key (attempt + 1) m cache
        = askLoop mode b' key (attempt + 1) m cache :=
      ih (attempt + 1) cache fun i hi => hag i (by omega)
    simp only [askLoop, ← hag attempt (Nat.le_refl _)]
    cases backend_eq : b attempt <;> simp [hrec]

/-- Claim C3: against a backend that returns a rate-limit error on every
attempt, with cache reads disabled or the key absent, `ask` makes exactly
10 attempts and then fails with the Timeout-kind error
(`AITimeoutException`). -/
theorem c3_rate_limit_ten_attempts (mode : CacheMode) (backend : Nat → AttemptOutcome)
    (messages : List Message) (model : String) (cache : CacheState)
    (hrl : ∀ i, backend i = AttemptOutcome.rateLimit)
    (hmiss : ¬ readsEnabled mode ∨ cacheGet cache (mkCacheKey messages model) = none) :
    (ask mode backend messages model cache).1 = AskResult.timeoutFailure ∧
    attemptCount (ask mode backend messages model cache).2.1 = 10 := by
  have hloop := askLoop_rateLimit_all mode backend (mkCacheKey messages model) hrl 10 0 cache
  by_cases hre : cacheEnabled mode = true ∧
      (mode = CacheMode.modeRead ∨ mode = CacheMode.modeReadWrite)
  · rcases hmiss with hmiss | hmiss
    · exact absurd hre hmiss
    · unfold ask
      rw [if_pos hre, hmiss]
      refine ⟨hloop.1, ?_⟩
      simpa [attemptCount, List.filter] using hloop.2.1
  · unfold ask
    rw [if_neg hre]
    exact ⟨hloop.1, hloop.2.1⟩

/-- Witness for C3 at a concrete input: with no cache and an
always-rate-limited backend, the call times out after exactly 10 attempts. -/
theorem c3_rate_limit_ten_attempts_witness :
    (ask CacheMode.modeNone (fun _ => AttemptOutcome.rateLimit) [] "m" []).1 =
      AskResult.timeoutFailure ∧
    attemptCount (ask CacheMode.modeNone (fun _ => AttemptOutcome.rateLimit) [] "m" []).2.1 = 10 :=
  c3_rate_limit_ten_attempts CacheMode.modeNone (fun _ => AttemptOutcome.rateLimit) [] "m" []
    (fun _ => rfl) (Or.inl (by decide))

theorem ask_write_inv (mode : CacheMode) (backend : Nat → AttemptOutcome)
    (messages : List Message) (model : String) (cache : CacheState) (k : CacheKey) (a : String)
    (h : Event.cacheWrite k a ∈ (ask mode backend messages model cache).2.1) :
    (mode = CacheMode.modeWrite ∨ mode = CacheMode.modeReadWrite) ∧ isBlank a = false := by
  unfold ask at h
  by_cases hre : cacheEnabled mode = true ∧
      (mode = CacheMode.modeRead ∨ mode = CacheMode.modeReadWrite)
  · rw [if_pos hre] at h
    cases hget : cacheGet cache (mkCacheKey messages model) with
    | none =>
      rw [hget] at h
      simp only [List.mem_cons] at h
      rcases h with h | h
      · exact Event.noConfusion h
      · have := askLoop_write_inv mode backend (mkCacheKey messages model) 10 0 cache k a h
        exact ⟨this.1, this.2.1⟩
    | some answer =>
      rw [hget] at h
      simp only [List.mem_singleton] at h
      exact Event.noConfusion h
  · rw [if_neg hre] at h
    have := askLoop_write_inv mode backend (mkCacheKey messages model) 10 0 cache k a h
    exact ⟨this.1, this.2.1⟩

theorem ask_state_inv (mode : CacheMode) (backend : Nat → AttemptOutcome)
    (messages : List Message) (model : String) (cache : CacheState)
    (hm : ¬(mode = CacheMode.modeWrite ∨ mode = CacheMode.modeReadWrite)) :
    (ask mode backend messages model cache).2.2 = cache := by
  unfold ask
  by_cases hre : cacheEnabled mode = true ∧
      (mode = CacheMode.modeRead ∨ mode = CacheMode.modeReadWrite)
  · rw [if_pos hre]
    cases hget : cacheGet cache (mkCacheKey messages model) with
    | none =>
      exact askLoop_no_write_state mode backend (mkCacheKey messages model) hm 10 0 cache
    | some answer => rfl
  · rw [if_neg hre]
    exact askLoop_no_write_state mode backend (mkCacheKey messages model) hm 10 0 cache

theorem ask_read_inv (mode : CacheMode) (backend : Nat → AttemptOutcome)
    (messages : List Message) (model : String) (cache : CacheState) (k : CacheKey)
    (h : Event.cacheRead k ∈ (ask mode backend messages model cache).2.1) :
    mode = CacheMode.modeRead ∨ mode = CacheMode.modeReadWrite := by
  unfold ask at h
  by_cases hre : cacheEnabled mode = true ∧
      (mode = CacheMode.modeRead ∨ mode = CacheMode.modeReadWrite)
  · exact hre.2
  · rw [if_neg hre] at h
    exact absurd h (askLoop_no_read mode backend (mkCacheKey messages model) 10 0 cache k)

theorem ask_backend_reached (mode : CacheMode) (backend : Nat → AttemptOutcome)
    (messages : List Message) (model : String) (cache : CacheState)
    (hmiss : ¬ readsEnabled mode ∨ cacheGet cache (mkCacheKey messages model) = none) :
    Event.backendAttempt 0 ∈ (ask mode backend messages model cache).2.1 := by
  unfold ask
  by_cases hre : cacheEnabled mode = true ∧
      (mode = CacheMode.modeRead ∨ mode = CacheMode.modeReadWrite)
  · rcases hmiss with hmiss | hmiss
    · exact absurd hre hmiss
    · rw [if_pos hre, hmiss]
      exact List.mem_cons_of_mem _
        (askLoop_attempt_mem mode backend (mkCacheKey messages model) 9 0 cache)
  · rw [if_neg hre]
    exact askLoop_attempt_mem mode backend (mkCacheKey messages model) 9 0 cache

/-- Claim C5: the cache-mode frame conditions of `ask`. Under `none` and
`read` the cache contents are unchanged and no write event occurs; under
`none` and `write` no read event occurs and the backend is consulted;
read events imply mode `read` or `read/write`, and write events imply mode
`write` or `read/write`. -/
theorem c5_cache_mode_frame (mode : CacheMode) (backend : Nat → AttemptOutcome)
    (messages : List Message) (model : String) (cache : CacheState) :
    ((mode = CacheMode.modeNone ∨ mode = CacheMode.modeRead) →
      (ask mode backend messages model cache).2.2 = cache ∧
      ∀ k a, Event.cacheWrite k a ∉ (ask mode backend messages model cache).2.1) ∧
    ((mode = CacheMode.modeNone ∨ mode = CacheMode.modeWrite) →
      (∀ k, Event.cacheRead k ∉ (ask mode backend messages model cache).2.1) ∧
      Event.backendAttempt 0 ∈ (ask mode backend messages model cache).2.1) ∧
    ((∃ k, Event.cacheRead k ∈ (ask mode backend messages model cache).2.1) →
      mode = CacheMode.modeRead ∨ mode = CacheMode.modeReadWrite) ∧
    ((∃ k a, Event.cacheWrite k a ∈ (ask mode backend messages model cache).2.1) →
      mode = CacheMode.modeWrite ∨ mode = CacheMode.modeReadWrite) := by
  refine ⟨?_, ?_, ?_, ?_⟩
  · intro hmode
    have hm : ¬(mode = CacheMode.modeWrite ∨ mode = CacheMode.modeReadWrite) := by
      rcases hmode with rfl | rfl <;> rintro (h | h) <;> exact CacheMode.noConfusion h
    refine ⟨ask_state_inv mode backend messages model cache hm, ?_⟩
    intro k a h
    exact hm (ask_write_inv mode backend messages model cache k a h).1
  · intro hmode
    have hnr : ¬ readsEnabled mode := by
      rcases hmode with rfl | rfl
      · rintro ⟨h, _⟩
        simp [cacheEnabled] at h
      · rintro ⟨_, h | h⟩ <;> exact CacheMode.noConfusion h
    constructor
    · intro k h
      have := ask_read_inv mode backend messages model cache k h
      rcases hmode with rfl | rfl <;> rcases this with h' | h' <;> exact CacheMode.noConfusion h'
    · exact ask_backend_reached mode backend messages model cache (Or.inl hnr)
  · rintro ⟨k, h⟩
    exact ask_read_inv mode backend messages model cache k h
  · rintro ⟨k, a, h⟩
    exact (ask_write_inv mode backend messages model cache k a h).1

/-- Witness for C5 at a concrete input: under mode `read` with an empty
cache, the call leaves the cache unchanged and writes nothing; under mode
`write` the backend is consulted and nothing is read. -/
theorem c5_cache_mode_frame_witness :
    ((ask CacheMode.modeRead (fun _ => AttemptOutcome.success "hi") [] "m" []).2.2 =
        ([] : CacheState) ∧
      ∀ k a, Event.cacheWrite k a ∉
        (ask CacheMode.modeRead (fun _ => AttemptOutcome.success "hi") [] "m" []).2.1) ∧
    ((∀ k, Event.cacheRead k ∉
        (ask CacheMode.modeWrite (fun _ => AttemptOutcome.success "hi") [] "m" []).2.1) ∧
      Event.backendAttempt 0 ∈
        (ask CacheMode.modeWrite (fun _ => AttemptOutcome.success "hi") [] "m" []).2.1) :=
  ⟨(c5_cache_mode_frame CacheMode.modeRead (fun _ => AttemptOutcome.success "hi") [] "m" []).1
      (Or.inr rfl),
   (c5_cache_mode_frame CacheMode.modeWrite (fun _ => AttemptOutcome.success "hi") [] "m" []).2.1
      (Or.inr rfl)⟩

/-- Claim C10: every cache entry written by `ask` has an answer that is
neither empty nor whitespace-only — the write happens only after the
accumulated stream content passed the non-whitespace check. -/
theorem c10_no_blank_cache_write (mode : CacheMode) (backend : Nat → AttemptOutcome)
    (messages : List Message) (model : String) (cache : CacheState) (k : CacheKey) (a : String)
    (h : Event.cacheWrite k a ∈ (ask mode backend messages model cache).2.1) :
    isBlank a = false :=
  (ask_write_inv mode backend messages model cache k a h).2

/-- Witness for C10 at a concrete input: the write produced under mode
`write` with content "hello" is non-blank. -/
theorem c10_no_blank_cache_write_witness :
    Event.cacheWrite ([], "m") "hello" ∈
      (ask CacheMode.modeWrite (fun _ => AttemptOutcome.success "hello") [] "m" []).2.1 ∧
    isBlank "hello" = false := by
  have hmem : Event.cacheWrite ([], "m") "hello" ∈
      (ask CacheMode.modeWrite (fun _ => AttemptOutcome.success "hello") [] "m" []).2.1 := by
    decide
  exact ⟨hmem,
    c10_no_blank_cache_write CacheMode.modeWrite (fun _ => AttemptOutcome.success "hello")
      [] "m" [] ([], "m") "hello" hmem⟩

/-- Claim C6: a stream that ends with blank (empty or whitespace-only)
accumulated content is treated exactly as a transient server error: the
attempt returns no value and writes nothing to the cache, the client sleeps
one second, and the loop retries with the same remaining attempt budget —
the call is indistinguishable from one whose backend raised a transport
reset or generic API error on that attempt. -/
theorem c6_blank_stream_is_transient (mode : CacheMode) (b b' : Nat → AttemptOutcome)
    (key : CacheKey) (attempt rem : Nat) (cache : CacheState) (c : String)
    (hb : b attempt = AttemptOutcome.success c) (hblank : isBlank c = true)
    (hb' : b' attempt = AttemptOutcome.transientError)
    (hagree : ∀ i, i ≠ attempt → b' i = b i) :
    askLoop mode b key attempt (rem + 1) cache =
      ((askLoop mode b key (attempt + 1) rem cache).1,
       Event.backendAttempt attempt :: Event.retrySleep 1 ::
         (askLoop mode b key (attempt + 1) rem cache).2.1,
       (askLoop mode b key (attempt + 1) rem cache).2.2) ∧
    askLoop mode b key attempt (rem + 1) cache = askLoop mode b' key attempt (rem + 1) cache := by
  have hcongr : askLoop mode b key (attempt + 1) rem cache
      = askLoop mode b' key (attempt + 1) rem cache :=
    askLoop_congr mode b b' key rem (attempt + 1) cache
      fun i hi => (hagree i (by omega)).symm
  constructor
  · simp only [askLoop, hb, if_pos hblank]
  · simp only [askLoop, hb, hb', if_pos hblank, hcongr]

/-- Witness for C6 at a concrete input: a first attempt streaming only a
space and a no-break space (U+00A0) — whitespace for Python's `strip()`
beyond ASCII — produces the same call outcome and trace as one whose first
attempt was a transport reset. -/
theorem c6_blank_stream_is_transient_witness :
    askLoop CacheMode.modeNone
        (fun i => if i = 0 then AttemptOutcome.success " \u00A0" else AttemptOutcome.success "done")
        ([], "m") 0 10 [] =
      askLoop CacheMode.modeNone
        (fun i => if i = 0 then AttemptOutcome.transientError else AttemptOutcome.success "done")
        ([], "m") 0 10 [] :=
  (c6_blank_stream_is_transient CacheMode.modeNone
    (fun i => if i = 0 then AttemptOutcome.success " \u00A0" else AttemptOutcome.success "done")
    (fun i => if i = 0 then AttemptOutcome.transientError else AttemptOutcome.success "done")
    ([], "m") 0 9 [] " \u00A0" rfl (by decide) rfl
    (fun i hi => by simp [hi])).2

/-- Claim C2 (amended): `ask` performs no token-count check before sending.
On a cache miss (or with reads disabled) the message array is sent to the
backend even when its token count, under any counter, exceeds the
`max_tokens` ceiling — the hypothesis on the count is not used by the
behaviour, which is precisely the point: the budget is maintained upstream
by chunking and collation, not enforced in `ask`. -/
theorem c2_no_token_check_before_send (cnt : String → Nat) (mode : CacheMode)
    (backend : Nat → AttemptOutcome) (messages : List Message) (model : String)
    (cache : CacheState)
    (_hbig : max_tokens "https://api.deepseek.com" < msgTokens cnt messages)
    (hmiss : ¬ readsEnabled mode ∨ cacheGet cache (mkCacheKey messages model) = none) :
    Event.backendAttempt 0 ∈ (ask mode backend messages model cache).2.1 :=
  ask_backend_reached mode backend messages model cache hmiss

/-- Counterexample to claim C2 as stated: a concrete call to `ask` that
reaches the backend although the token count of its message array (54001,
counting code points) exceeds the DeepSeek ceiling of 54000 — no token
check guards the send. -/
theorem c2_counterexample :
    max_tokens "https://api.deepseek.com" <
      msgTokens String.length [⟨"user", String.mk (List.replicate 54001 'a')⟩] ∧
    Event.backendAttempt 0 ∈
      (ask CacheMode.modeNone (fun _ => AttemptOutcome.success "ok")
        [⟨"user", String.mk (List.replicate 54001 'a')⟩] "deepseek-chat" []).2.1 := by
  constructor
  · have hlen : (String.mk (List.replicate 54001 'a')).length = 54001 := by
      rw [String.length_mk, List.length_replicate]
    have hmsg : msgTokens String.length [⟨"user", String.mk (List.replicate 54001 'a')⟩]
        = 54001 := by
      simp only [msgTokens, List.map_cons, List.map_nil, List.sum_cons, List.sum_nil, hlen, Nat.add_zero]
    have hmax : max_tokens "https://api.deepseek.com" = 54000 := by
      unfold max_tokens
      rw [if_pos rfl]
    omega
  · exact ask_backend_reached CacheMode.modeNone (fun _ => AttemptOutcome.success "ok")
      [⟨"user", String.mk (List.replicate 54001 'a')⟩] "deepseek-chat" []
      (Or.inl (by decide))

/-- Witness for C2 (amended) at a concrete input: discharges the amended
theorem's hypotheses at an over-budget message array with no cache. -/
theorem c2_no_token_check_before_send_witness :
    Event.backendAttempt 0 ∈
      (ask CacheMode.modeNone (fun _ => AttemptOutcome.success "ok")
        [⟨"user", String.mk (List.replicate 54001 'a')⟩] "gemini-2.0-flash" []).2.1 :=
  c2_no_token_check_before_send String.length CacheMode.modeNone
    (fun _ => AttemptOutcome.success "ok")
    [⟨"user", String.mk (List.replicate 54001 'a')⟩] "gemini-2.0-flash" []
    (by
      have hlen : (String.mk (List.replicate 54001 'a')).length = 54001 := by
        rw [String.length_mk, List.length_replicate]
      have hmsg : msgTokens String.length [⟨"user", String.mk (List.replicate 54001 'a')⟩]
          = 54001 := by
        simp only [msgTokens, List.map_cons, List.map_nil, List.sum_cons, List.sum_nil, hlen, Nat.add_zero]
      have hmax : max_tokens "https://api.deepseek.com" = 54000 := by
        unfold max_tokens
        rw [if_pos rfl]
      omega)
    (Or.inl (by decide))

end Llmap
